import Mathlib

/-
Shallow embedding of the SecureApp contact-manager (src/app.py) together
with proofs about its specified behaviour.  Strings are modelled as
`List Char` (all data handled by the app is ASCII); Python's `str.strip`,
`str.upper`, substring / startswith / endswith tests are embedded
explicitly below.  The SQLAlchemy-backed tables become lists of records,
a Flask session becomes an association list of keys and integer values
(the only value this app ever stores is the integer user id), and each
request handler becomes a pure function from stores and session to the
new stores, the new session and a response.
-/

namespace SecureApp

/-- ASCII whitespace recognised by Python `str.strip()`. -/
def isPySpace (c : Char) : Bool :=
  c = ' ' || c = '\t' || c = '\n' || c = '\r' || c = Char.ofNat 11 || c = Char.ofNat 12

/-- Leading-whitespace removal (the left half of Python `str.strip()`). -/
def ltrim (l : List Char) : List Char := l.dropWhile isPySpace

/-- Trailing-whitespace removal (the right half of Python `str.strip()`). -/
def rtrim (l : List Char) : List Char := (l.reverse.dropWhile isPySpace).reverse

/-- Python `str.strip()`: drop leading and trailing whitespace. -/
def pyStrip (l : List Char) : List Char := rtrim (ltrim l)

/-- Python `str.upper()` on ASCII data. -/
def pyUpper (l : List Char) : List Char := l.map Char.toUpper

/-- Python `needle in haystack` on strings: contiguous substring test. -/
def containsSeq (needle haystack : List Char) : Bool := decide (needle <:+: haystack)

/-- Python `str.startswith`. -/
def startsWith (pre l : List Char) : Bool := List.isPrefixOf pre l

/-- Python `str.endswith`. -/
def endsWith (suf l : List Char) : Bool := List.isSuffixOf suf l

/-- The literal sequences rejected outright (`FORBIDDEN_SEQUENCES` in app.py). -/
def FORBIDDEN_SEQUENCES : List (List Char) :=
  ["--".toList, ";".toList, "/*".toList, "*/".toList]

/-- The denylisted SQL keywords (`SQL_KEYWORDS` in app.py). -/
def SQL_KEYWORDS : List (List Char) :=
  ["SELECT".toList, "INSERT".toList, "UPDATE".toList, "DELETE".toList,
    "DROP".toList, "ALTER".toList, "UNION".toList]

/-- Keyword boundary test for one keyword, as in the loop body of
`reject_injection` in app.py: full equality, leading keyword-plus-space,
trailing space-plus-keyword, or space-keyword-space as a substring of the
uppercased value. -/
def keywordHit (keyword upperValue : List Char) : Bool :=
  upperValue == keyword
    || startsWith (keyword ++ [' ']) upperValue
    || endsWith ([' '] ++ keyword) upperValue
    || containsSeq ([' '] ++ keyword ++ [' ']) upperValue

/-- The validator `reject_injection` from app.py, as a Boolean: `true` iff the validator
raises `ValidationError`.  The value is stripped first; the literal
sequences are checked case-sensitively on the stripped value, the keywords
on its uppercased form. -/
def reject_injection (raw : List Char) : Bool :=
  let value := pyStrip raw
  if FORBIDDEN_SEQUENCES.any (fun seq => containsSeq seq value) then true
  else SQL_KEYWORDS.any (fun keyword => keywordHit keyword (pyUpper value))

/-- The Input Screener rejection condition exactly as the specification
words it: after trimming, the value contains one of the literal substrings
anywhere, or its uppercased form exactly equals, starts with (keyword then
one space), ends with (one space then keyword), or contains surrounded by
single spaces one of the SQL keywords. -/
def screenerRejectsSpec (raw : List Char) : Prop :=
  (∃ seq ∈ FORBIDDEN_SEQUENCES, seq <:+: pyStrip raw) ∨
  (∃ k ∈ SQL_KEYWORDS,
    pyUpper (pyStrip raw) = k ∨
    (k ++ [' ']) <+: pyUpper (pyStrip raw) ∨
    ([' '] ++ k) <:+ pyUpper (pyStrip raw) ∨
    ([' '] ++ k ++ [' ']) <:+: pyUpper (pyStrip raw))

/-- One occurrence test used to analyse the keyword rule: the keyword `k`
occurs in `t` at index `i` with a token boundary on both sides — the start
of the string or a space on the left, and the end of the string or a space
on the right. -/
def spaceBounded (k t : List Char) (i : Nat) : Bool :=
  decide ((t.drop i).take k.length = k)
    && (decide (i = 0) || decide (t[i-1]? = some ' '))
    && (decide (i + k.length = t.length) || decide (t[i + k.length]? = some ' '))

/-- No SQL keyword occurs in `t` with a token boundary on both sides: every
occurrence of a keyword touches a non-space character on at least one side. -/
def noSpaceBoundedKeyword (t : List Char) : Bool :=
  SQL_KEYWORDS.all (fun k => (List.range (t.length + 1)).all (fun i => !spaceBounded k t i))

/-- wtforms `DataRequired`: fails on an empty or whitespace-only value. -/
def dataRequired (raw : List Char) : Bool := !(pyStrip raw).isEmpty

/-- wtforms `Length(min, max)` on the raw field value. -/
def lengthBetween (lo hi : Nat) (raw : List Char) : Bool :=
  lo ≤ raw.length && raw.length ≤ hi

/-- wtforms `Length(max)` on the raw field value. -/
def lengthMax (hi : Nat) (raw : List Char) : Bool := raw.length ≤ hi

/-- The character class of the name fields' pattern `[A-Za-z' -]`:
ASCII letters, apostrophe, hyphen, space. -/
def nameClassChar (c : Char) : Bool :=
  c.isAlpha || c = Char.ofNat 39 || c = '-' || c = ' '

/-- The character class of the username pattern `[A-Za-z0-9_.@-]`. -/
def usernameClassChar (c : Char) : Bool :=
  c.isAlpha || c.isDigit || c = '_' || c = '.' || c = '@' || c = '-'

/-- Python `re.match` of an anchored pattern `[cls]+` followed by the
dollar anchor: the whole value consists of one or more class characters,
where the dollar anchor also tolerates a single trailing newline. -/
def reMatchPlusAnchored (cls : Char → Bool) (l : List Char) : Bool :=
  let core := if l.getLast? = some '\n' then l.dropLast else l
  !core.isEmpty && core.all cls

/-- The validator chain of `ContactForm.fname` and `ContactForm.lname`:
`DataRequired`, `Length(max=100)`, `Regexp` over letters, spaces,
apostrophes and hyphens, then `reject_injection`. -/
def nameFieldValid (raw : List Char) : Bool :=
  dataRequired raw && lengthMax 100 raw && reMatchPlusAnchored nameClassChar raw
    && !reject_injection raw

/-- The validator chain of `ContactForm.email`: `DataRequired`, the
external `Email` validator (kept abstract as `emailOk`), `Length(max=200)`,
then `reject_injection`. -/
def emailFieldValid (emailOk : List Char → Bool) (raw : List Char) : Bool :=
  dataRequired raw && emailOk raw && lengthMax 200 raw && !reject_injection raw

/-- Validation of a whole `ContactForm`: all three fields pass their validator chains. -/
def contactFormValid (emailOk : List Char → Bool) (f l e : List Char) : Bool :=
  nameFieldValid f && nameFieldValid l && emailFieldValid emailOk e

/-- The validator chain of `LoginForm.username`: `DataRequired`,
`Length(min=3, max=80)`, `Regexp` over the username character class. -/
def usernameFieldValid (raw : List Char) : Bool :=
  dataRequired raw && lengthBetween 3 80 raw && reMatchPlusAnchored usernameClassChar raw

/-- The validator chain of `LoginForm.password`: `DataRequired`,
`Length(min=8, max=128)`. -/
def passwordFieldValid (raw : List Char) : Bool :=
  dataRequired raw && lengthBetween 8 128 raw

/-- Validation of a whole `LoginForm`: both fields pass their validator chains. -/
def loginFormValid (uname pwd : List Char) : Bool :=
  usernameFieldValid uname && passwordFieldValid pwd

/-- A bcrypt digest as the app observes it: it records the salt used and,
abstractly, the password it was derived from.  `flask_bcrypt` guarantees
that hashing the same password under different salts yields different
digest strings and that verification recovers a match; irreversibility is
outside this model. -/
structure BcryptHash where
  salt : Nat
  pw : List Char
deriving DecidableEq, Repr

/-- The call `bcrypt.generate_password_hash`, with an explicitly threaded fresh salt. -/
def generate_password_hash (salt : Nat) (password : List Char) : BcryptHash :=
  ⟨salt, password⟩

/-- The call `bcrypt.check_password_hash`. -/
def check_password_hash (h : BcryptHash) (password : List Char) : Bool :=
  h.pw == password

/-- A row of the `users` table. -/
structure UserRec where
  id : Nat
  username : List Char
  password_hash : BcryptHash
deriving DecidableEq, Repr

/-- The method `User.set_password` from app.py. -/
def UserRec.setPassword (u : UserRec) (salt : Nat) (password : List Char) : UserRec :=
  { u with password_hash := generate_password_hash salt password }

/-- The method `User.check_password` from app.py. -/
def UserRec.checkPassword (u : UserRec) (password : List Char) : Bool :=
  check_password_hash u.password_hash password

/-- The `users` table plus its autoincrement counter. -/
structure UserStore where
  users : List UserRec
  nextId : Nat
deriving DecidableEq, Repr

/-- The constant `DEFAULT_ADMIN_USERNAME` from app.py (its development default). -/
def DEFAULT_ADMIN_USERNAME : List Char := "i221693@nu.edu.pk".toList

/-- The constant `DEFAULT_ADMIN_PASSWORD` from app.py (its development default). -/
def DEFAULT_ADMIN_PASSWORD : List Char := "123456@a".toList

/-- The lookup `User.query.filter_by(username=...).first()`. -/
def findByUsername (st : UserStore) (uname : List Char) : Option UserRec :=
  st.users.find? (fun u => u.username == uname)

/-- In-place hash overwrite of the row returned by `first()`: the first row
with the given username gets the new digest, every other row is untouched. -/
def overwriteFirstHash : List UserRec → List Char → BcryptHash → List UserRec
  | [], _, _ => []
  | u :: rest, uname, h =>
    if u.username == uname then { u with password_hash := h } :: rest
    else u :: overwriteFirstHash rest uname h

/-- The bootstrap `ensure_seed_admin` from app.py, with the fresh bcrypt salt threaded
explicitly: return unchanged when the admin exists and verifies, create the
admin when absent, otherwise overwrite the stored hash. -/
def ensure_seed_admin (st : UserStore) (salt : Nat) : UserStore :=
  match findByUsername st DEFAULT_ADMIN_USERNAME with
  | some u =>
    if u.checkPassword DEFAULT_ADMIN_PASSWORD then st
    else { st with
            users := overwriteFirstHash st.users DEFAULT_ADMIN_USERNAME
              (generate_password_hash salt DEFAULT_ADMIN_PASSWORD) }
  | none =>
    { users := st.users ++
        [⟨st.nextId, DEFAULT_ADMIN_USERNAME, generate_password_hash salt DEFAULT_ADMIN_PASSWORD⟩],
      nextId := st.nextId + 1 }

/-- A row of the `first_app` contacts table. -/
structure ContactRecord where
  sno : Nat
  fname : List Char
  lname : List Char
  email : List Char
deriving DecidableEq, Repr

/-- The `first_app` table plus its autoincrement counter. -/
structure ContactStore where
  records : List ContactRecord
  nextSno : Nat
deriving DecidableEq, Repr

/-- A rendered response, named after what the handlers in app.py return. -/
inductive Response where
  | redirect (target : List Char)
  | redirectToLogin (next : List Char)
  | loginPage
  | indexPage
  | updatePage (sno : Nat)
  | notFoundPage
deriving DecidableEq, Repr

/-- The path `url_for("index")`. -/
def indexPath : List Char := "/".toList

/-- The path `url_for("login")`. -/
def loginPath : List Char := "/login".toList

/-- The lookup `FirstApp.query.get(sno)`: primary-key lookup. -/
def findContact (st : ContactStore) (sno : Nat) : Option ContactRecord :=
  st.records.find? (fun r => r.sno == sno)

/-- The POST branch of `index` in app.py: on a valid `ContactForm`, append
a record built from the stripped field values under the next id and
redirect to `/`; otherwise leave the store alone and redisplay the page. -/
def indexPost (emailOk : List Char → Bool) (st : ContactStore) (f l e : List Char) :
    ContactStore × Response :=
  if contactFormValid emailOk f l e then
    ({ records := st.records ++ [⟨st.nextSno, pyStrip f, pyStrip l, pyStrip e⟩],
       nextSno := st.nextSno + 1 },
      Response.redirect indexPath)
  else (st, Response.indexPage)

/-- The handler `delete` in app.py: `get_or_404` then delete the row with that primary
key (the table's primary-key constraint makes the key unique, so removal by
key is removal of that one row) and redirect to `/`. -/
def deleteContact (st : ContactStore) (sno : Nat) : ContactStore × Response :=
  match findContact st sno with
  | none => (st, Response.notFoundPage)
  | some _ =>
    ({ st with records := st.records.filter (fun r => !(r.sno == sno)) },
      Response.redirect indexPath)

/-- The handler `update` in app.py: `get_or_404`, then on a valid `ContactForm` assign
all three stripped field values to the fetched row and commit; on an
invalid form leave the store alone and redisplay the page. -/
def updateContact (emailOk : List Char → Bool) (st : ContactStore) (sno : Nat)
    (f l e : List Char) : ContactStore × Response :=
  match findContact st sno with
  | none => (st, Response.notFoundPage)
  | some _ =>
    if contactFormValid emailOk f l e then
      ({ st with
          records := st.records.map (fun r =>
            if r.sno == sno then
              { r with fname := pyStrip f, lname := pyStrip l, email := pyStrip e }
            else r) },
        Response.redirect indexPath)
    else (st, Response.updatePage sno)

/-- The contact stores reachable through the exposed operations, starting
from the empty table (ids start at 1): these are the only exposed
operations that touch the `first_app` table. -/
inductive Reach (emailOk : List Char → Bool) : ContactStore → Prop where
  | init : Reach emailOk ⟨[], 1⟩
  | create (st : ContactStore) (f l e : List Char) :
      Reach emailOk st → Reach emailOk (indexPost emailOk st f l e).1
  | change (st : ContactStore) (sno : Nat) (f l e : List Char) :
      Reach emailOk st → Reach emailOk (updateContact emailOk st sno f l e).1
  | remove (st : ContactStore) (sno : Nat) :
      Reach emailOk st → Reach emailOk (deleteContact st sno).1

/-- A Flask session as this app uses it: the key-value pairs (the only
values the app itself stores are integers — the user id) plus the
`permanent` mark.  Flash messages are presentation-layer state handled by
the framework and are outside the model. -/
structure Session where
  data : List (String × Nat)
  permanent : Bool
deriving DecidableEq, Repr

/-- The read `session.get(key)`. -/
def sessionGet (s : Session) (k : String) : Option Nat :=
  (s.data.find? (fun kv => kv.1 == k)).map (fun kv => kv.2)

/-- Python truthiness of `session.get("user_id")`: `None` and `0` are falsy. -/
def truthyOpt : Option Nat → Bool
  | none => false
  | some n => !(n == 0)

/-- The session key the app stores the logged-in user's id under. -/
def userIdKey : String := "user_id"

/-- The test made by the `login_required` decorator. -/
def isAuthenticated (s : Session) : Bool := truthyOpt (sessionGet s userIdKey)

/-- The config entry `PERMANENT_SESSION_LIFETIME`, in minutes. -/
def PERMANENT_SESSION_LIFETIME_MINUTES : Nat := 30

/-- The POST branch of `login` in app.py: validate the `LoginForm`, look
the user up by the stripped username, check the password; on success clear
the session, store the user id, mark the session permanent and redirect to
the `next` argument or `/`; on any failure redisplay the login page with
the session untouched. -/
def loginPost (ust : UserStore) (sess : Session) (nextArg : Option (List Char))
    (uname pwd : List Char) : Session × Response :=
  if loginFormValid uname pwd then
    match findByUsername ust (pyStrip uname) with
    | some u =>
      if u.checkPassword pwd then
        (⟨[(userIdKey, u.id)], true⟩, Response.redirect (nextArg.getD indexPath))
      else (sess, Response.loginPage)
    | none => (sess, Response.loginPage)
  else (sess, Response.loginPage)

/-- The whole application state behind one process: both tables. -/
structure AppState where
  contacts : ContactStore
  users : UserStore
deriving DecidableEq, Repr

/-- The routes of app.py, carrying their request data. -/
inductive Route where
  | loginR (nextArg : Option (List Char)) (uname pwd : List Char)
  | logoutR
  | indexGetR
  | indexPostR (f l e : List Char)
  | deleteR (sno : Nat)
  | updateR (sno : Nat) (f l e : List Char)
deriving DecidableEq, Repr

/-- The value `request.path` for each route. -/
def routePath : Route → List Char
  | Route.loginR _ _ _ => "/login".toList
  | Route.logoutR => "/logout".toList
  | Route.indexGetR => "/".toList
  | Route.indexPostR _ _ _ => "/".toList
  | Route.deleteR sno => "/delete/".toList ++ (toString sno).toList
  | Route.updateR sno _ _ _ => "/update/".toList ++ (toString sno).toList

/-- The `login_required` decorator: an unauthenticated caller is redirected
to the login entry point carrying `request.path` as the `next` argument and
the wrapped handler body never runs; an authenticated caller gets the body. -/
def login_required_guard (sess : Session) (path : List Char)
    (body : Unit → AppState × Session × Response) (app : AppState) :
    AppState × Session × Response :=
  if isAuthenticated sess then body () else (app, sess, Response.redirectToLogin path)

/-- The app's dispatch: every route except `login` is wrapped in
`login_required`; `logout` clears the session; the data routes run the
handlers above. -/
def dispatch (emailOk : List Char → Bool) (route : Route) (app : AppState)
    (sess : Session) : AppState × Session × Response :=
  match route with
  | Route.loginR nextArg uname pwd =>
    let out := loginPost app.users sess nextArg uname pwd
    (app, out.1, out.2)
  | Route.logoutR =>
    login_required_guard sess (routePath Route.logoutR)
      (fun _ => (app, ⟨[], false⟩, Response.redirect loginPath)) app
  | Route.indexGetR =>
    login_required_guard sess (routePath Route.indexGetR)
      (fun _ => (app, sess, Response.indexPage)) app
  | Route.indexPostR f l e =>
    login_required_guard sess (routePath (Route.indexPostR f l e))
      (fun _ =>
        let out := indexPost emailOk app.contacts f l e
        ({ app with contacts := out.1 }, sess, out.2)) app
  | Route.deleteR sno =>
    login_required_guard sess (routePath (Route.deleteR sno))
      (fun _ =>
        let out := deleteContact app.contacts sno
        ({ app with contacts := out.1 }, sess, out.2)) app
  | Route.updateR sno f l e =>
    login_required_guard sess (routePath (Route.updateR sno f l e))
      (fun _ =>
        let out := updateContact emailOk app.contacts sno f l e
        ({ app with contacts := out.1 }, sess, out.2)) app

/- Concrete sample data used by the closed witness statements below. -/

/-- A sample email acceptor standing in for the external `Email` validator. -/
def sampleEmailOk (l : List Char) : Bool := l == "jane@example.com".toList

/-- A sample user whose password is the too-short string `123`. -/
def shortPwdUser : UserRec := ⟨1, "admin".toList, generate_password_hash 7 "123".toList⟩

/-- A sample user store holding only `shortPwdUser`. -/
def shortPwdStore : UserStore := ⟨[shortPwdUser], 2⟩

/-- A sample user with an eight-character password. -/
def sampleUser : UserRec := ⟨1, "admin".toList, generate_password_hash 7 "hunter42".toList⟩

/-- A sample user store holding only `sampleUser`. -/
def sampleUserStore : UserStore := ⟨[sampleUser], 2⟩

/-- A sample pre-login session with stale keys. -/
def staleSession : Session := ⟨[("theme", 3), ("user_id", 9)], false⟩

/-- A sample contact row. -/
def sampleRecord : ContactRecord :=
  ⟨1, "Jane".toList, "Doe".toList, "jane@example.com".toList⟩

/-- A sample contact store holding only `sampleRecord`. -/
def sampleContactStore : ContactStore := ⟨[sampleRecord], 2⟩

/-- An empty application state. -/
def emptyApp : AppState := ⟨⟨[], 1⟩, ⟨[], 1⟩⟩

/-- The sample record after a valid update that renames Jane to Janet. -/
def updatedSampleRecord : ContactRecord :=
  { sampleRecord with
      fname := pyStrip "Janet".toList
      lname := pyStrip "Doe".toList
      email := pyStrip "jane@example.com".toList }

/- Lemmas about stripping. -/

theorem dropWhile_self (p : Char → Bool) (l : List Char) :
    (l.dropWhile p).dropWhile p = l.dropWhile p := by
  cases h : l.dropWhile p with
  | nil => simp
  | cons a as =>
    have ha : ¬ p a := by
      have := List.head_dropWhile_not p l (by simp [h])
      simpa [h] using this
    simp [List.dropWhile_cons, ha]

theorem ltrim_ltrim (l : List Char) : ltrim (ltrim l) = ltrim l :=
  dropWhile_self isPySpace l

theorem rtrim_rtrim (l : List Char) : rtrim (rtrim l) = rtrim l := by
  unfold rtrim
  rw [List.reverse_reverse, dropWhile_self]

theorem ltrim_rtrim_of_ltrim (l : List Char) (h : ltrim l = l) :
    ltrim (rtrim l) = rtrim l := by
  cases l with
  | nil => simp [ltrim, rtrim]
  | cons c as =>
    have hc : isPySpace c = false := by
      by_cases hpc : isPySpace c = true
      · exfalso
        have hlen : (as.dropWhile isPySpace).length ≤ as.length :=
          (List.dropWhile_sublist _).length_le
        have : List.dropWhile isPySpace (c :: as) = c :: as := h
        rw [List.dropWhile_cons, if_pos hpc] at this
        rw [this] at hlen
        simp at hlen
      · simpa using hpc
    have hrev : (c :: as).reverse = as.reverse ++ [c] := by simp
    unfold rtrim
    rw [hrev, List.dropWhile_append]
    by_cases hemp : (as.reverse.dropWhile isPySpace).isEmpty = true
    · rw [if_pos hemp]
      simp [ltrim, List.dropWhile_cons, hc]
    · rw [if_neg hemp]
      simp [ltrim, List.reverse_append, List.dropWhile_cons, hc]

theorem pyStrip_idem (l : List Char) : pyStrip (pyStrip l) = pyStrip l := by
  unfold pyStrip
  rw [ltrim_rtrim_of_ltrim (ltrim l) (ltrim_ltrim l), rtrim_rtrim]

theorem ltrim_sublist (l : List Char) : (ltrim l).Sublist l :=
  List.dropWhile_sublist _

theorem rtrim_sublist (l : List Char) : (rtrim l).Sublist l := by
  have h := (List.dropWhile_sublist (l := l.reverse) isPySpace).reverse
  simpa [rtrim] using h

theorem pyStrip_sublist (l : List Char) : (pyStrip l).Sublist l :=
  (rtrim_sublist (ltrim l)).trans (ltrim_sublist l)

theorem rtrim_append_space (l : List Char) (c : Char) (hc : isPySpace c = true) :
    rtrim (l ++ [c]) = rtrim l := by
  unfold rtrim
  rw [List.reverse_append]
  simp [List.dropWhile_cons, hc]

theorem pyStrip_append_space (l : List Char) (c : Char) (hc : isPySpace c = true) :
    pyStrip (l ++ [c]) = pyStrip l := by
  unfold pyStrip ltrim
  rw [List.dropWhile_append]
  by_cases hemp : (l.dropWhile isPySpace).isEmpty = true
  · rw [if_pos hemp]
    rw [List.isEmpty_iff] at hemp
    simp [List.dropWhile_cons, hc, hemp, rtrim]
  · rw [if_neg hemp, rtrim_append_space _ _ hc]

theorem reject_injection_pyStrip (raw : List Char) :
    reject_injection (pyStrip raw) = reject_injection raw := by
  unfold reject_injection
  rw [pyStrip_idem]

/- Occurrence analysis of the keyword rule. -/

theorem spaceBounded_of_decomp (k t L R : List Char) (ht : t = L ++ (k ++ R))
    (hL : L = [] ∨ ∃ Lp, L = Lp ++ [' ']) (hR : R = [] ∨ ∃ Rt, R = ' ' :: Rt) :
    L.length ≤ t.length ∧ spaceBounded k t L.length = true := by
  subst ht
  constructor
  · simp [List.length_append]
  · simp only [spaceBounded, Bool.and_eq_true, Bool.or_eq_true, decide_eq_true_eq]
    refine ⟨⟨?_, ?_⟩, ?_⟩
    · rw [List.drop_left, List.take_left]
    · rcases hL with hL | ⟨Lp, hLp⟩
      · left
        rw [hL]
        rfl
      · right
        have hrw : (L ++ (k ++ R)) = Lp ++ (' ' :: (k ++ R)) := by
          rw [hLp]
          simp
        have hidx : L.length - 1 = Lp.length := by
          rw [hLp]
          simp
        rw [hrw, hidx, List.getElem?_append_right (le_refl _)]
        simp
    · rcases hR with hR | ⟨Rt, hRt⟩
      · left
        rw [hR]
        simp
      · right
        have hrw : (L ++ (k ++ R)) = (L ++ k) ++ (' ' :: Rt) := by
          rw [hRt]
          simp
        have hidx : L.length + k.length = (L ++ k).length := by simp
        rw [hrw, hidx, List.getElem?_append_right (le_refl _)]
        simp

theorem keywordHit_spaceBounded (k t : List Char) (h : keywordHit k t = true) :
    ∃ i, i ≤ t.length ∧ spaceBounded k t i = true := by
  simp only [keywordHit, Bool.or_eq_true, startsWith, endsWith, containsSeq,
    List.isPrefixOf_iff_prefix, List.isSuffixOf_iff_suffix, beq_iff_eq,
    decide_eq_true_eq] at h
  rcases h with ((h | h) | h) | h
  · exact ⟨0, by
      have := spaceBounded_of_decomp k t [] [] (by simp [h]) (Or.inl rfl) (Or.inl rfl)
      simpa using this⟩
  · rcases h with ⟨r, hr⟩
    refine ⟨0, ?_⟩
    have := spaceBounded_of_decomp k t [] (' ' :: r)
      (by rw [← hr]; simp) (Or.inl rfl) (Or.inr ⟨r, rfl⟩)
    simpa using this
  · rcases h with ⟨s, hs⟩
    refine ⟨(s ++ [' ']).length, ?_⟩
    exact spaceBounded_of_decomp k t (s ++ [' ']) []
      (by rw [← hs]; simp) (Or.inr ⟨s, rfl⟩) (Or.inl rfl)
  · rcases h with ⟨s, u, hsu⟩
    refine ⟨(s ++ [' ']).length, ?_⟩
    exact spaceBounded_of_decomp k t (s ++ [' ']) (' ' :: u)
      (by rw [← hsu]; simp) (Or.inr ⟨s, rfl⟩) (Or.inr ⟨u, rfl⟩)

theorem reject_injection_eq_false (raw : List Char)
    (hforb : ∀ seq ∈ FORBIDDEN_SEQUENCES, containsSeq seq (pyStrip raw) = false)
    (hkw : noSpaceBoundedKeyword (pyUpper (pyStrip raw)) = true) :
    reject_injection raw = false := by
  have hany : FORBIDDEN_SEQUENCES.any (fun seq => containsSeq seq (pyStrip raw)) = false := by
    rw [List.any_eq_false]
    intro x hx
    simp [hforb x hx]
  have hkw2 : SQL_KEYWORDS.any
      (fun keyword => keywordHit keyword (pyUpper (pyStrip raw))) = false := by
    rw [List.any_eq_false]
    intro k hk hcontra
    obtain ⟨i, hile, hsb⟩ := keywordHit_spaceBounded _ _ hcontra
    simp only [noSpaceBoundedKeyword, List.all_eq_true] at hkw
    have := hkw k hk i (by simp [List.mem_range]; omega)
    simp [hsb] at this
  simp [reject_injection, hany, hkw2]

/- Restripping a value that passed the name validators. -/

theorem nameFieldValid_pyStrip (raw : List Char) (h : nameFieldValid raw = true) :
    nameFieldValid (pyStrip raw) = true := by
  simp only [nameFieldValid, Bool.and_eq_true, Bool.not_eq_true'] at h ⊢
  obtain ⟨⟨⟨h1, h2⟩, h3⟩, h4⟩ := h
  have hsubset : ∀ a ∈ pyStrip raw, nameClassChar a = true := by
    by_cases hnl : raw.getLast? = some '\n'
    · have hne : raw ≠ [] := by
        intro h0
        rw [h0] at hnl
        simp at hnl
      have hlast : raw.getLast hne = '\n' := by
        have hg := List.getLast?_eq_getLast raw hne
        rw [hnl] at hg
        exact (Option.some_injective _ hg).symm
      have hraw : raw.dropLast ++ ['\n'] = raw := by
        have hd := List.dropLast_append_getLast hne
        rw [hlast] at hd
        exact hd
      have hstrip : pyStrip raw = pyStrip raw.dropLast := by
        conv_lhs => rw [← hraw]
        exact pyStrip_append_space _ _ (by decide)
      simp only [reMatchPlusAnchored, hnl, if_pos, Bool.and_eq_true,
        List.all_eq_true] at h3
      intro a ha
      rw [hstrip] at ha
      exact h3.2 a ((pyStrip_sublist _).subset ha)
    · simp only [reMatchPlusAnchored, if_neg hnl, Bool.and_eq_true,
        List.all_eq_true] at h3
      intro a ha
      exact h3.2 a ((pyStrip_sublist _).subset ha)
  have hnonempty : pyStrip raw ≠ [] := by
    unfold dataRequired at h1
    simpa [List.isEmpty_eq_false] using h1
  refine ⟨⟨⟨?_, ?_⟩, ?_⟩, ?_⟩
  · unfold dataRequired
    rw [pyStrip_idem]
    unfold dataRequired at h1
    exact h1
  · unfold lengthMax at h2 ⊢
    simp only [decide_eq_true_eq] at h2 ⊢
    exact le_trans (pyStrip_sublist raw).length_le h2
  · have hnl2 : ¬ (pyStrip raw).getLast? = some '\n' := by
      intro hx
      have hmem := List.mem_of_getLast?_eq_some hx
      have := hsubset _ hmem
      exact absurd this (by decide)
    simp only [reMatchPlusAnchored, if_neg hnl2, Bool.and_eq_true, List.all_eq_true]
    constructor
    · simpa [List.isEmpty_eq_false] using hnonempty
    · exact hsubset
  · rw [reject_injection_pyStrip]
    exact h4

/- C1 -/

/-- C1: the Input Screener (`reject_injection`) rejects a value if and only
if, after trimming, the value contains one of the literal substrings `--`,
`;`, `/*`, `*/` anywhere, or its uppercased form equals / starts with
(keyword then a space) / ends with (a space then keyword) / contains
space-surrounded one of the SQL keywords — the boundary-matched condition
stated by the specification. -/
theorem c1_reject_injection_iff_spec (raw : List Char) :
    reject_injection raw = true ↔ screenerRejectsSpec raw := by
  simp [reject_injection, screenerRejectsSpec, keywordHit, containsSeq, startsWith,
    endsWith, Bool.if_true_left, List.any_eq_true, List.isPrefixOf_iff_prefix,
    List.isSuffixOf_iff_suffix, beq_iff_eq, decide_eq_true_eq, or_assoc]

/- C9 -/

/-- C9: when every occurrence of a denylist keyword in the trimmed,
uppercased value touches a non-space character on at least one side (no
occurrence is bounded by spaces, the string start, or the string end on
both sides), the keyword rule does not fire; if the value also avoids the
literal sequences and satisfies the name structural rule, it is accepted
as a first or last name. -/
theorem c9_adjacent_keyword_accepted (raw : List Char)
    (hforb : ∀ seq ∈ FORBIDDEN_SEQUENCES, containsSeq seq (pyStrip raw) = false)
    (hkw : noSpaceBoundedKeyword (pyUpper (pyStrip raw)) = true)
    (hreq : dataRequired raw = true)
    (hlen : lengthMax 100 raw = true)
    (hre : reMatchPlusAnchored nameClassChar raw = true) :
    reject_injection raw = false ∧ nameFieldValid raw = true := by
  have hri := reject_injection_eq_false raw hforb hkw
  exact ⟨hri, by simp [nameFieldValid, hreq, hlen, hre, hri]⟩

/-- Witness for C9 at the concrete value `Drop-Table`. -/
theorem c9_adjacent_keyword_accepted_witness :
    reject_injection "Drop-Table".toList = false ∧
      nameFieldValid "Drop-Table".toList = true :=
  c9_adjacent_keyword_accepted "Drop-Table".toList (by decide) (by decide)
    (by decide) (by decide) (by decide)

/- C4 -/

/-- C4: in every store reachable through the exposed operations, every
stored record's fields pass the Input Screener's rules — each name field
passes the full name validator chain and the email field passes the email
validator chain.  The invariant is established by create, preserved by
update, and delete never writes fields.  The external `Email` validator is
abstract; the one fact used about it is that a value it accepts carries no
surrounding whitespace, so stripping it before storage is the identity. -/
theorem c4_store_invariant (emailOk : List Char → Bool) (st : ContactStore)
    (hemail : ∀ s, emailOk s = true → pyStrip s = s)
    (hreach : Reach emailOk st) :
    ∀ r ∈ st.records,
      nameFieldValid r.fname = true ∧ nameFieldValid r.lname = true ∧
        emailFieldValid emailOk r.email = true := by
  induction hreach with
  | init => simp
  | create st f l e _ ih =>
    intro r hr
    unfold indexPost at hr
    by_cases hv : contactFormValid emailOk f l e = true
    · rw [if_pos hv] at hr
      simp only [List.mem_append, List.mem_singleton] at hr
      rcases hr with hr | hr
      · exact ih r hr
      · subst hr
        simp only [contactFormValid, Bool.and_eq_true] at hv
        obtain ⟨⟨hf, hl⟩, he⟩ := hv
        have hestrip : pyStrip e = e := by
          apply hemail
          simp only [emailFieldValid, Bool.and_eq_true] at he
          exact he.1.1.2
        refine ⟨nameFieldValid_pyStrip f hf, nameFieldValid_pyStrip l hl, ?_⟩
        show emailFieldValid emailOk (pyStrip e) = true
        rw [hestrip]
        exact he
    · rw [if_neg hv] at hr
      exact ih r hr
  | change st sno f l e _ ih =>
    intro r hr
    unfold updateContact at hr
    cases hfind : findContact st sno with
    | none =>
      rw [hfind] at hr
      exact ih r hr
    | some rec =>
      rw [hfind] at hr
      by_cases hv : contactFormValid emailOk f l e = true
      · rw [if_pos hv] at hr
        simp only [List.mem_map] at hr
        obtain ⟨r0, hr0, hup⟩ := hr
        by_cases hsno : (r0.sno == sno) = true
        · rw [if_pos hsno] at hup
          subst hup
          simp only [contactFormValid, Bool.and_eq_true] at hv
          obtain ⟨⟨hf, hl⟩, he⟩ := hv
          have hestrip : pyStrip e = e := by
            apply hemail
            simp only [emailFieldValid, Bool.and_eq_true] at he
            exact he.1.1.2
          refine ⟨nameFieldValid_pyStrip f hf, nameFieldValid_pyStrip l hl, ?_⟩
          show emailFieldValid emailOk (pyStrip e) = true
          rw [hestrip]
          exact he
        · rw [if_neg hsno] at hup
          subst hup
          exact ih r0 hr0
      · rw [if_neg hv] at hr
        exact ih r hr
  | remove st sno _ ih =>
    intro r hr
    unfold deleteContact at hr
    cases hfind : findContact st sno with
    | none =>
      rw [hfind] at hr
      exact ih r hr
    | some rec =>
      rw [hfind] at hr
      simp only [List.mem_filter] at hr
      exact ih r hr.1

/-- Witness for C4: the store reached by one create from the empty store
contains the sample record, whose fields pass the screener. -/
theorem c4_store_invariant_witness :
    nameFieldValid sampleRecord.fname = true ∧ nameFieldValid sampleRecord.lname = true ∧
      emailFieldValid sampleEmailOk sampleRecord.email = true := by
  have h := c4_store_invariant sampleEmailOk
    (indexPost sampleEmailOk ⟨[], 1⟩ "Jane".toList "Doe".toList "jane@example.com".toList).1
    (fun s hs => by
      have hseq : s = "jane@example.com".toList := by
        simpa [sampleEmailOk] using hs
      subst hseq
      decide)
    (Reach.create _ _ _ _ Reach.init)
  exact h sampleRecord (by decide)

/- C5 -/

/-- C5: for an existing record id, update is all-or-nothing relative to
validation — if any one of the three submitted fields fails screening the
whole store (hence the stored record) is unchanged, and if all three pass
then the record with that id carries all three stripped new values while
every other record is carried over. -/
theorem c5_update_all_or_nothing (emailOk : List Char → Bool) (st : ContactStore)
    (sno : Nat) (f l e : List Char) (rec : ContactRecord)
    (hfind : findContact st sno = some rec) :
    ((nameFieldValid f = false ∨ nameFieldValid l = false ∨
        emailFieldValid emailOk e = false) →
      (updateContact emailOk st sno f l e).1 = st) ∧
    (contactFormValid emailOk f l e = true →
      ∀ r ∈ st.records,
        (r.sno ≠ sno → r ∈ (updateContact emailOk st sno f l e).1.records) ∧
        (r.sno = sno →
          { r with fname := pyStrip f, lname := pyStrip l, email := pyStrip e } ∈
            (updateContact emailOk st sno f l e).1.records)) := by
  constructor
  · intro hbad
    have hv : contactFormValid emailOk f l e = false := by
      simp only [contactFormValid, Bool.and_eq_false_iff]
      rcases hbad with h | h | h
      · exact Or.inl (Or.inl h)
      · exact Or.inl (Or.inr h)
      · exact Or.inr h
    unfold updateContact
    rw [hfind, hv]
    simp
  · intro hv r hr
    unfold updateContact
    rw [hfind, hv]
    simp only [if_true]
    constructor
    · intro hne
      have : (if r.sno == sno then
          { r with fname := pyStrip f, lname := pyStrip l, email := pyStrip e }
          else r) = r := by
        rw [if_neg (by simpa using hne)]
      exact this ▸ List.mem_map_of_mem _ hr
    · intro heq
      have : (if r.sno == sno then
          { r with fname := pyStrip f, lname := pyStrip l, email := pyStrip e }
          else r) =
          { r with fname := pyStrip f, lname := pyStrip l, email := pyStrip e } := by
        rw [if_pos (by simpa using heq)]
      exact this ▸ List.mem_map_of_mem _ hr

/-- Witness for C5: on the sample store, an update whose first name fails
screening leaves the store unchanged, and a fully valid update stores all
three stripped values. -/
theorem c5_update_all_or_nothing_witness :
    (updateContact sampleEmailOk sampleContactStore 1 ";x".toList "Doe".toList
      "jane@example.com".toList).1 = sampleContactStore ∧
    updatedSampleRecord ∈
      (updateContact sampleEmailOk sampleContactStore 1 "Janet".toList "Doe".toList
        "jane@example.com".toList).1.records := by
  constructor
  · exact (c5_update_all_or_nothing sampleEmailOk sampleContactStore 1 ";x".toList
      "Doe".toList "jane@example.com".toList sampleRecord (by decide)).1
      (Or.inl (by decide))
  · exact ((c5_update_all_or_nothing sampleEmailOk sampleContactStore 1 "Janet".toList
      "Doe".toList "jane@example.com".toList sampleRecord (by decide)).2
      (by decide) sampleRecord (by decide)).2 rfl

/- C6 -/

/-- C6: delete and update on an absent id both answer the not-found page
and leave the store untouched; delete on a present id removes exactly the
record with that id — the fetched record is gone, every record with a
different id survives, and nothing new appears. -/
theorem c6_delete_update_not_found (emailOk : List Char → Bool) (st : ContactStore)
    (sno : Nat) (f l e : List Char) :
    (findContact st sno = none →
      deleteContact st sno = (st, Response.notFoundPage) ∧
      updateContact emailOk st sno f l e = (st, Response.notFoundPage)) ∧
    (∀ rec, findContact st sno = some rec →
      (deleteContact st sno).2 = Response.redirect indexPath ∧
      rec ∉ (deleteContact st sno).1.records ∧
      (∀ r ∈ st.records, r.sno ≠ sno → r ∈ (deleteContact st sno).1.records) ∧
      (∀ r ∈ (deleteContact st sno).1.records, r ∈ st.records ∧ r.sno ≠ sno)) := by
  constructor
  · intro hnone
    unfold deleteContact updateContact
    rw [hnone]
    exact ⟨rfl, rfl⟩
  · intro rec hsome
    have hsno : rec.sno = sno := by
      have := List.find?_some hsome
      simpa using this
    unfold deleteContact
    rw [hsome]
    refine ⟨rfl, ?_, ?_, ?_⟩
    · intro hmem
      simp only [List.mem_filter] at hmem
      have := hmem.2
      simp [hsno] at this
    · intro r hr hne
      simp only [List.mem_filter]
      exact ⟨hr, by simpa using hne⟩
    · intro r hr
      simp only [List.mem_filter] at hr
      refine ⟨hr.1, ?_⟩
      have := hr.2
      simpa using this

/-- Witness for C6: on the sample store, id 5 is absent so delete and
update give not-found and change nothing, while deleting id 1 removes the
sample record. -/
theorem c6_delete_update_not_found_witness :
    deleteContact sampleContactStore 5 = (sampleContactStore, Response.notFoundPage) ∧
    updateContact sampleEmailOk sampleContactStore 5 "Jane".toList "Doe".toList
      "jane@example.com".toList = (sampleContactStore, Response.notFoundPage) ∧
    sampleRecord ∉ (deleteContact sampleContactStore 1).1.records := by
  have h1 := (c6_delete_update_not_found sampleEmailOk sampleContactStore 5 "Jane".toList
    "Doe".toList "jane@example.com".toList).1 (by decide)
  have h2 := ((c6_delete_update_not_found sampleEmailOk sampleContactStore 1 "Jane".toList
    "Doe".toList "jane@example.com".toList).2 sampleRecord (by decide)).2.1
  exact ⟨h1.1, h1.2, h2⟩

/- C2 -/

/-- C2: a request to any route other than login made without a user id in
the session leaves the stores and session untouched and answers a redirect
to the login entry point carrying the requested path as the return target;
a subsequent successful login submitted with that return target answers a
redirect to exactly that path. -/
theorem c2_guard_redirects_then_returns (emailOk : List Char → Bool) (route : Route)
    (app : AppState) (sess : Session)
    (hanon : isAuthenticated sess = false)
    (hnl : ∀ nextArg uname pwd, route ≠ Route.loginR nextArg uname pwd) :
    dispatch emailOk route app sess = (app, sess, Response.redirectToLogin (routePath route)) ∧
    (∀ (ust : UserStore) (sess2 : Session) (uname pwd : List Char) (u : UserRec),
      loginFormValid uname pwd = true →
      findByUsername ust (pyStrip uname) = some u →
      u.checkPassword pwd = true →
      loginPost ust sess2 (some (routePath route)) uname pwd =
        (⟨[(userIdKey, u.id)], true⟩, Response.redirect (routePath route))) := by
  constructor
  · cases route with
    | loginR nextArg uname pwd => exact absurd rfl (hnl nextArg uname pwd)
    | logoutR => simp [dispatch, login_required_guard, hanon]
    | indexGetR => simp [dispatch, login_required_guard, hanon]
    | indexPostR f l e => simp [dispatch, login_required_guard, hanon]
    | deleteR sno => simp [dispatch, login_required_guard, hanon]
    | updateR sno f l e => simp [dispatch, login_required_guard, hanon]
  · intro ust sess2 uname pwd u hform hfind hpwd
    simp [loginPost, hform, hfind, hpwd]

/-- Witness for C2: an anonymous request to logout redirects to login with
`/logout` as the return target, and the subsequent successful login of the
sample user redirects back to `/logout`. -/
theorem c2_guard_redirects_then_returns_witness :
    dispatch sampleEmailOk Route.logoutR emptyApp ⟨[], false⟩ =
      (emptyApp, ⟨[], false⟩, Response.redirectToLogin (routePath Route.logoutR)) ∧
    loginPost sampleUserStore ⟨[], false⟩ (some (routePath Route.logoutR))
        "admin".toList "hunter42".toList =
      (⟨[(userIdKey, sampleUser.id)], true⟩, Response.redirect (routePath Route.logoutR)) := by
  have h := c2_guard_redirects_then_returns sampleEmailOk Route.logoutR emptyApp
    ⟨[], false⟩ (by decide) (fun nextArg uname pwd hx => nomatch hx)
  exact ⟨h.1, h.2 sampleUserStore ⟨[], false⟩ "admin".toList "hunter42".toList
    sampleUser (by decide) (by decide) (by decide)⟩

/- C7 -/

/-- C7: on a successful login the whole pre-login session is discarded and
replaced: the resulting session is exactly the single binding of the user
id key to the authenticated user's id, so no pair of the old session under
any other key survives; the session is marked permanent, and the
configured permanent-session lifetime is 30 minutes. -/
theorem c7_login_discards_prior_session (ust : UserStore) (sess : Session)
    (nextArg : Option (List Char)) (uname pwd : List Char) (u : UserRec)
    (hform : loginFormValid uname pwd = true)
    (hfind : findByUsername ust (pyStrip uname) = some u)
    (hpwd : u.checkPassword pwd = true) :
    (loginPost ust sess nextArg uname pwd).1 = ⟨[(userIdKey, u.id)], true⟩ ∧
    (∀ k v, (k, v) ∈ sess.data → k ≠ userIdKey →
      (k, v) ∉ (loginPost ust sess nextArg uname pwd).1.data) ∧
    sessionGet (loginPost ust sess nextArg uname pwd).1 userIdKey = some u.id ∧
    (loginPost ust sess nextArg uname pwd).1.permanent = true ∧
    PERMANENT_SESSION_LIFETIME_MINUTES = 30 := by
  have hout : (loginPost ust sess nextArg uname pwd).1 = ⟨[(userIdKey, u.id)], true⟩ := by
    simp [loginPost, hform, hfind, hpwd]
  refine ⟨hout, ?_, ?_, ?_, rfl⟩
  · intro k v _ hk
    rw [hout]
    simp only [List.mem_singleton, Prod.mk.injEq, not_and]
    intro hkk
    exact absurd hkk hk
  · rw [hout]
    simp [sessionGet]
  · rw [hout]

/-- Witness for C7: logging the sample user in from a stale session yields
exactly the singleton session, and the stale theme binding is gone. -/
theorem c7_login_discards_prior_session_witness :
    (loginPost sampleUserStore staleSession none "admin".toList "hunter42".toList).1 =
      ⟨[(userIdKey, sampleUser.id)], true⟩ ∧
    ("theme", 3) ∉
      (loginPost sampleUserStore staleSession none "admin".toList "hunter42".toList).1.data := by
  have h := c7_login_discards_prior_session sampleUserStore staleSession none
    "admin".toList "hunter42".toList sampleUser (by decide) (by decide) (by decide)
  exact ⟨h.1, h.2.1 "theme" 3 (by decide) (by decide)⟩

/- C10 -/

/-- C10: a login submission whose password is shorter than 8 or longer
than 128 characters fails form validation: the login page is redisplayed,
the session is unchanged, and the outcome is the same whatever the
credential store holds — the store is never consulted, even when the
submitted password equals the stored user's actual password. -/
theorem c10_password_length_gate (ust ust2 : UserStore) (sess : Session)
    (nextArg : Option (List Char)) (uname pwd : List Char)
    (hlen : pwd.length < 8 ∨ 128 < pwd.length) :
    loginPost ust sess nextArg uname pwd = (sess, Response.loginPage) ∧
    loginPost ust sess nextArg uname pwd = loginPost ust2 sess nextArg uname pwd := by
  have hform : loginFormValid uname pwd = false := by
    simp only [loginFormValid, passwordFieldValid, lengthBetween, Bool.and_eq_false_iff]
    right
    right
    simp only [Bool.and_eq_false_iff, decide_eq_false_iff_not, not_le]
    omega
  constructor
  · simp [loginPost, hform]
  · simp [loginPost, hform]

/-- Witness for C10: submitting the three-character password `123` for the
user whose stored password is `123` still redisplays the login page with
the session untouched. -/
theorem c10_password_length_gate_witness :
    loginPost shortPwdStore staleSession none "admin".toList "123".toList =
      (staleSession, Response.loginPage) ∧
    loginPost shortPwdStore staleSession none "admin".toList "123".toList =
      loginPost ⟨[], 1⟩ staleSession none "admin".toList "123".toList := by
  have h := c10_password_length_gate shortPwdStore ⟨[], 1⟩ staleSession none
    "admin".toList "123".toList (by decide)
  exact h

/- C8 -/

/-- C8: hashing a password yields a digest against which the password
verifies; two hashing calls with the same password but distinct fresh
salts yield distinct digests, and both verify. -/
theorem c8_set_password_verifies (u : UserRec) (p : List Char) (s1 s2 : Nat)
    (hs : s1 ≠ s2) :
    (u.setPassword s1 p).checkPassword p = true ∧
    (u.setPassword s2 p).checkPassword p = true ∧
    (u.setPassword s1 p).password_hash ≠ (u.setPassword s2 p).password_hash := by
  refine ⟨?_, ?_, ?_⟩
  · simp [UserRec.setPassword, UserRec.checkPassword, check_password_hash,
      generate_password_hash]
  · simp [UserRec.setPassword, UserRec.checkPassword, check_password_hash,
      generate_password_hash]
  · simp only [UserRec.setPassword, generate_password_hash, ne_eq,
      BcryptHash.mk.injEq, not_and]
    intro hss
    exact absurd hss hs

/-- Witness for C8 at the sample user with salts 0 and 1. -/
theorem c8_set_password_verifies_witness :
    (sampleUser.setPassword 0 "hunter42".toList).checkPassword "hunter42".toList = true ∧
    (sampleUser.setPassword 1 "hunter42".toList).checkPassword "hunter42".toList = true ∧
    (sampleUser.setPassword 0 "hunter42".toList).password_hash ≠
      (sampleUser.setPassword 1 "hunter42".toList).password_hash :=
  c8_set_password_verifies sampleUser "hunter42".toList 0 1 (by decide)

/- Lemmas about the seed-admin bootstrap. -/

theorem overwriteFirstHash_map_username (l : List UserRec) (un : List Char)
    (h : BcryptHash) :
    (overwriteFirstHash l un h).map (fun u => u.username) =
      l.map (fun u => u.username) := by
  induction l with
  | nil => rfl
  | cons u rest ih =>
    by_cases hu : (u.username == un) = true
    · simp [overwriteFirstHash, hu]
    · simp [overwriteFirstHash, hu, ih]

theorem find?_overwriteFirstHash (l : List UserRec) (un : List Char) (h : BcryptHash)
    (u : UserRec) (hf : l.find? (fun v => v.username == un) = some u) :
    (overwriteFirstHash l un h).find? (fun v => v.username == un) =
      some { u with password_hash := h } := by
  induction l with
  | nil => simp at hf
  | cons w rest ih =>
    by_cases hw : (w.username == un) = true
    · rw [@List.find?_cons_of_pos UserRec (fun v => v.username == un) w rest hw] at hf
      have hwu : w = u := by
        simpa using hf
      subst hwu
      simp only [overwriteFirstHash, if_pos hw]
      exact @List.find?_cons_of_pos UserRec (fun v => v.username == un)
        { w with password_hash := h } rest (by simpa using hw)
    · rw [@List.find?_cons_of_neg UserRec (fun v => v.username == un) w rest hw] at hf
      simp only [overwriteFirstHash, if_neg hw]
      rw [@List.find?_cons_of_neg UserRec (fun v => v.username == un) w
        (overwriteFirstHash rest un h) hw]
      exact ih hf

theorem filter_username_length_one : ∀ (l : List UserRec),
    (l.map (fun u => u.username)).Nodup → ∀ u0 ∈ l,
    u0.username = DEFAULT_ADMIN_USERNAME →
    (l.filter (fun u => u.username == DEFAULT_ADMIN_USERNAME)).length = 1 := by
  intro l
  induction l with
  | nil =>
    intro _ u0 hmem _
    simp at hmem
  | cons w rest ih =>
    intro hnodup u0 hmem hname
    simp only [List.map_cons, List.nodup_cons] at hnodup
    obtain ⟨hwnotin, hrest⟩ := hnodup
    rcases List.mem_cons.mp hmem with hw | hmemr
    · subst hw
      have hpw : (u0.username == DEFAULT_ADMIN_USERNAME) = true := by simpa using hname
      rw [List.filter_cons, if_pos (by simpa using hpw)]
      have hnil : rest.filter (fun u => u.username == DEFAULT_ADMIN_USERNAME) = [] := by
        rw [List.filter_eq_nil_iff]
        intro x hx hpx
        apply hwnotin
        have hxname : x.username = DEFAULT_ADMIN_USERNAME := by simpa using hpx
        exact List.mem_map.mpr ⟨x, hx, hxname.trans hname.symm⟩
      rw [hnil]
      rfl
    · have hpw : ¬ (w.username == DEFAULT_ADMIN_USERNAME) = true := by
        intro hb
        apply hwnotin
        have hwname : w.username = DEFAULT_ADMIN_USERNAME := by simpa using hb
        exact List.mem_map.mpr ⟨u0, hmemr, hname.trans hwname.symm⟩
      rw [List.filter_cons, if_neg (by simpa using hpw)]
      exact ih hrest u0 hmemr hname

/- C3 -/

/-- C3: the seed-admin bootstrap is idempotent and establishes exactly one
admin account with a verifying password.  Starting from any store whose
usernames are unique (the `users` table's unique-column constraint),
running the bootstrap twice in a row produces the same store as running it
once, and after any run exactly one record carries the configured admin
username while the configured admin password verifies against its hash —
the record is created when absent and its hash is overwritten when present
but not verifying. -/
theorem c3_seed_admin_idempotent (st : UserStore) (s1 s2 : Nat)
    (hnodup : (st.users.map (fun u => u.username)).Nodup) :
    ensure_seed_admin (ensure_seed_admin st s1) s2 = ensure_seed_admin st s1 ∧
    ((ensure_seed_admin st s1).users.filter
        (fun u => u.username == DEFAULT_ADMIN_USERNAME)).length = 1 ∧
    (∀ u ∈ (ensure_seed_admin st s1).users, u.username = DEFAULT_ADMIN_USERNAME →
      u.checkPassword DEFAULT_ADMIN_PASSWORD = true) := by
  cases hfind : findByUsername st DEFAULT_ADMIN_USERNAME with
  | none =>
    have hfind' : st.users.find? (fun u => u.username == DEFAULT_ADMIN_USERNAME) = none :=
      hfind
    have hnomem : ∀ x ∈ st.users, ¬ (x.username == DEFAULT_ADMIN_USERNAME) = true :=
      List.find?_eq_none.mp hfind'
    have hres : ensure_seed_admin st s1 =
        ⟨st.users ++ [⟨st.nextId, DEFAULT_ADMIN_USERNAME,
          generate_password_hash s1 DEFAULT_ADMIN_PASSWORD⟩], st.nextId + 1⟩ := by
      simp [ensure_seed_admin, hfind]
    refine ⟨?_, ?_, ?_⟩
    · rw [hres]
      simp [ensure_seed_admin, findByUsername, List.find?_append, hfind',
        UserRec.checkPassword, check_password_hash, generate_password_hash]
    · rw [hres]
      show ((st.users ++ _).filter _).length = 1
      rw [List.filter_append, List.filter_eq_nil_iff.mpr hnomem]
      simp
    · rw [hres]
      intro u hu hname
      simp only [List.mem_append, List.mem_singleton] at hu
      rcases hu with hu | hu
      · exact absurd (by simpa using hname) (hnomem u hu)
      · subst hu
        simp [UserRec.checkPassword, check_password_hash, generate_password_hash]
  | some u0 =>
    have hfind' : st.users.find? (fun u => u.username == DEFAULT_ADMIN_USERNAME) =
        some u0 := hfind
    have hu0name : u0.username = DEFAULT_ADMIN_USERNAME := by
      simpa using List.find?_some hfind'
    have hu0mem : u0 ∈ st.users := List.mem_of_find?_eq_some hfind'
    by_cases hchk : u0.checkPassword DEFAULT_ADMIN_PASSWORD = true
    · have hres : ensure_seed_admin st s1 = st := by
        simp [ensure_seed_admin, hfind, hchk]
      refine ⟨?_, ?_, ?_⟩
      · rw [hres]
        simp [ensure_seed_admin, hfind, hchk]
      · rw [hres]
        exact filter_username_length_one st.users hnodup u0 hu0mem hu0name
      · rw [hres]
        intro u hu hname
        have heq : u = u0 :=
          List.inj_on_of_nodup_map hnodup hu hu0mem (hname.trans hu0name.symm)
        rw [heq]
        exact hchk
    · have hres : ensure_seed_admin st s1 =
          ⟨overwriteFirstHash st.users DEFAULT_ADMIN_USERNAME
            (generate_password_hash s1 DEFAULT_ADMIN_PASSWORD), st.nextId⟩ := by
        simp [ensure_seed_admin, hfind, hchk]
      have hfind2 : (overwriteFirstHash st.users DEFAULT_ADMIN_USERNAME
            (generate_password_hash s1 DEFAULT_ADMIN_PASSWORD)).find?
            (fun u => u.username == DEFAULT_ADMIN_USERNAME) =
          some { u0 with password_hash :=
            generate_password_hash s1 DEFAULT_ADMIN_PASSWORD } :=
        find?_overwriteFirstHash _ _ _ _ hfind'
      have hchk2 : ({ u0 with password_hash :=
            generate_password_hash s1 DEFAULT_ADMIN_PASSWORD } : UserRec).checkPassword
            DEFAULT_ADMIN_PASSWORD = true := by
        simp [UserRec.checkPassword, check_password_hash, generate_password_hash]
      have hmap : (overwriteFirstHash st.users DEFAULT_ADMIN_USERNAME
            (generate_password_hash s1 DEFAULT_ADMIN_PASSWORD)).map
            (fun u => u.username) = st.users.map (fun u => u.username) :=
        overwriteFirstHash_map_username _ _ _
      refine ⟨?_, ?_, ?_⟩
      · rw [hres]
        simp [ensure_seed_admin, findByUsername, hfind2, hchk2]
      · rw [hres]
        exact filter_username_length_one _ (by rw [hmap]; exact hnodup) _
          (List.mem_of_find?_eq_some hfind2) (by simp [hu0name])
      · rw [hres]
        intro u hu hname
        have hnodup2 : ((overwriteFirstHash st.users DEFAULT_ADMIN_USERNAME
            (generate_password_hash s1 DEFAULT_ADMIN_PASSWORD)).map
            (fun u => u.username)).Nodup := by
          rw [hmap]
          exact hnodup
        have hmem2 : ({ u0 with password_hash :=
            generate_password_hash s1 DEFAULT_ADMIN_PASSWORD } : UserRec) ∈
            overwriteFirstHash st.users DEFAULT_ADMIN_USERNAME
              (generate_password_hash s1 DEFAULT_ADMIN_PASSWORD) :=
          List.mem_of_find?_eq_some hfind2
        have heq : u = { u0 with password_hash :=
            generate_password_hash s1 DEFAULT_ADMIN_PASSWORD } :=
          List.inj_on_of_nodup_map hnodup2 hu hmem2 (by simp [hname, hu0name])
        rw [heq]
        exact hchk2

/-- Witness for C3: bootstrapping an empty user store creates the admin;
the second run changes nothing and exactly one admin exists. -/
theorem c3_seed_admin_idempotent_witness :
    ensure_seed_admin (ensure_seed_admin ⟨[], 1⟩ 0) 1 = ensure_seed_admin ⟨[], 1⟩ 0 ∧
    ((ensure_seed_admin (⟨[], 1⟩ : UserStore) 0).users.filter
        (fun u => u.username == DEFAULT_ADMIN_USERNAME)).length = 1 := by
  have h := c3_seed_admin_idempotent ⟨[], 1⟩ 0 1 (by decide)
  exact ⟨h.1, h.2.1⟩

end SecureApp
